import Mathlib

/-!
Verification of the wal-g postgres `FileTarInterpreter` (tar_file_interpreter):
a shallow embedding of `WriteLocalFile`, `unwrapRegularFileOld`, `Interpret`,
`OnInterpretFinish`, `PrepareDirs` and `getFileSyncMode`, together with a
spec-modelled `ApplyFileIncrement` (whose body lives outside the interpreter
file), and theorems about restoration behaviour.

Bytes are `Nat`, file contents `List Nat`.  The local filesystem is an
association list from paths to nodes; OS-call failures (chmod, fsync, remove,
open, mkdir) that depend on the environment are passed in explicitly as
oracle booleans, and the outcome of `io.Copy` is passed in as a value.
-/

namespace WalG

/-- A filesystem node: a regular file (content bytes, permission mode bits,
and whether its content has been fsynced since last write), a directory,
a hard link or a symbolic link. -/
inductive FNode where
  | file (content : List Nat) (mode : Nat) (synced : Bool)
  | dir (mode : Nat)
  | hardlink (target : String)
  | symlink (target : String)
deriving DecidableEq, Repr

/-- The local filesystem: an association list from absolute paths to nodes
(first binding wins). -/
abbrev FS := List (String × FNode)

/-- Look up the node at a path. -/
def fsLookup (nm : String) : FS → Option FNode
  | [] => none
  | (k, v) :: rest => if k = nm then some v else fsLookup nm rest

/-- Remove the node at a path (`os.Remove`). -/
def fsRemove (nm : String) (fs : FS) : FS :=
  fs.filter (fun p => p.1 ≠ nm)

/-- Bind a path to a node, shadowing any previous binding. -/
def fsInsert (nm : String) (v : FNode) (fs : FS) : FS :=
  (nm, v) :: fsRemove nm fs

theorem fsLookup_fsRemove_self (nm : String) (fs : FS) :
    fsLookup nm (fsRemove nm fs) = none := by
  induction fs with
  | nil => rfl
  | cons p rest ih =>
      by_cases h : p.1 = nm <;> simp [fsRemove, fsLookup, h] at ih ⊢ <;>
        simpa [fsRemove, h] using ih

theorem fsLookup_fsInsert_self (nm : String) (v : FNode) (fs : FS) :
    fsLookup nm (fsInsert nm v fs) = some v := by
  simp [fsInsert, fsLookup]

theorem fsLookup_fsRemove_ne (nm nm' : String) (fs : FS) (h : nm' ≠ nm) :
    fsLookup nm' (fsRemove nm fs) = fsLookup nm' fs := by
  induction fs with
  | nil => rfl
  | cons p rest ih =>
      by_cases hp : p.1 = nm
      · have hne : ¬p.1 = nm' := by
          rw [hp]; exact fun hc => h hc.symm
        have h1 : fsRemove nm (p :: rest) = fsRemove nm rest := by
          simp [fsRemove, List.filter_cons, hp]
        rw [h1, ih]
        simp [fsLookup, hne]
      · have h1 : fsRemove nm (p :: rest) = p :: fsRemove nm rest := by
          simp [fsRemove, List.filter_cons, hp]
        rw [h1]
        by_cases hq : p.1 = nm' <;> simp [fsLookup, hq, ih]

theorem fsLookup_fsInsert_ne (nm nm' : String) (v : FNode) (fs : FS)
    (h : nm' ≠ nm) : fsLookup nm' (fsInsert nm v fs) = fsLookup nm' fs := by
  have : ¬nm = nm' := fun hc => h hc.symm
  simp [fsInsert, fsLookup, this]
  exact fsLookup_fsRemove_ne nm nm' fs h

/-! ## Durability-mode resolution (`getFileSyncMode`, `OnInterpretFinish`) -/

/-- The `internal.WalFsyncMode` string enumeration: `DEFAULT`, `GLOBAL`,
`DISABLED`. -/
inductive WalFsyncMode where
  | DEFAULT
  | GLOBAL
  | DISABLED
deriving DecidableEq, Repr

/-- Warnings `getFileSyncMode` can log: the deprecation warning for the
legacy `WALG_TAR_DISABLE_FSYNC` boolean, and the fallback warning naming the
`DISABLED` fallback. -/
inductive Warning where
  | deprecated
  | fallingBack
deriving DecidableEq, Repr

/-- Configuration as seen through viper: the new file-sync-mode setting
(`none` = unset; reading an unset setting yields `DEFAULT`, the zero value of
the enumeration, per the spec treatment of unset as `Default`) and the legacy
disable-fsync boolean (`none` = not set, `some b` = set to `b`). -/
structure RestoreConfig where
  tarFsyncMode : Option WalFsyncMode
  tarDisableFsync : Option Bool
deriving DecidableEq, Repr

/-- `getFileSyncMode`: resolve the effective file-sync mode from
configuration, returning the resolved mode and the warnings logged, in
order. -/
def getFileSyncMode (cfg : RestoreConfig) : WalFsyncMode × List Warning :=
  let fsyncMode := cfg.tarFsyncMode.getD .DEFAULT
  match cfg.tarDisableFsync with
  | none => (fsyncMode, [])
  | some b =>
      if fsyncMode = .DEFAULT ∧ b then (.DISABLED, [.deprecated, .fallingBack])
      else (fsyncMode, [.deprecated])

/-- Result of `OnInterpretFinish`: whether the whole-filesystem sync syscall
was issued, and the error (carrying the syscall error code) returned, if
any. -/
structure FinishResult where
  syncIssued : Bool
  errorCode : Option Nat
deriving DecidableEq, Repr

/-- `OnInterpretFinish`: resolve the sync mode; for `GLOBAL` or `DEFAULT`
issue `unix.Syscall(unix.SYS_SYNC)` (its errno outcome is the argument
`syncCode`, `0` meaning success) and surface a nonzero code as an error. -/
def OnInterpretFinish (cfg : RestoreConfig) (syncCode : Nat) : FinishResult :=
  let m := (getFileSyncMode cfg).1
  if m = .GLOBAL ∨ m = .DEFAULT then
    if syncCode ≠ 0 then ⟨true, some syncCode⟩ else ⟨true, none⟩
  else ⟨false, none⟩

/-! ## Path helpers (Go `path.Join`/`Clean`, `filepath.Base`,
`strings.TrimSuffix`) -/

/-- Split a character list on `'/'` (boundaries included as empty
components, as in Go's `strings.Split`). -/
def splitOnSlash : List Char → List (List Char)
  | [] => [[]]
  | c :: rest =>
      if c = '/' then [] :: splitOnSlash rest
      else
        match splitOnSlash rest with
        | g :: gs => (c :: g) :: gs
        | [] => [[c]]

/-- One step of the lexical cleaning loop of Go's `path.Clean`: the
accumulator holds already-emitted components in reverse order.  Empty and
`.` components are dropped; `..` pops the previous component, except at the
root (dropped when rooted) or when only `..` components precede it (kept
when not rooted). -/
def cleanStep (rooted : Bool) (acc : List (List Char)) (c : List Char) :
    List (List Char) :=
  if c = [] ∨ c = ['.'] then acc
  else if c = ['.', '.'] then
    match acc with
    | [] => if rooted then [] else [c]
    | a :: rest => if a = ['.', '.'] then c :: acc else rest
  else c :: acc

/-- Go `path.Clean`: lexically simplify a slash-separated path (drop empty
and `.` components, resolve inner `..`, keep leading `..` on relative paths,
drop `..` at the root), returning `"."` for an empty result on a relative
path and `"/"`-rooted results for rooted paths. -/
def pathClean (s : String) : String :=
  if s = "" then "."
  else
    let l := s.toList
    let rooted := l.head? = some '/'
    let comps := ((splitOnSlash l).foldl (cleanStep rooted) []).reverse
    let body := List.intercalate ['/'] comps
    if rooted then String.mk ('/' :: body)
    else if body = [] then "." else String.mk body

/-- Go `path.Join` restricted to two elements, as used for
`path.Join(tarInterpreter.DBDataDirectory, fileInfo.Name)`: join the
non-empty elements with `"/"` and clean the result; all-empty input yields
`""`. -/
def pathJoin (a b : String) : String :=
  if a ≠ "" then pathClean (a ++ "/" ++ b)
  else if b ≠ "" then pathClean b
  else ""

/-- Drop trailing `'/'` characters. -/
def dropTrailingSlashes (l : List Char) : List Char :=
  ((l.reverse).dropWhile (fun c => c = '/')).reverse

/-- The characters after the last `'/'`. -/
def lastComponent (l : List Char) : List Char :=
  ((l.reverse).takeWhile (fun c => c ≠ '/')).reverse

/-- Go `filepath.Base` (unix): `""` maps to `"."`; otherwise strip trailing
slashes, and return the part after the last slash, or `"/"` when nothing
remains (path of slashes only). -/
def goFilepathBase (s : String) : String :=
  if s = "" then "."
  else
    let t := dropTrailingSlashes s.toList
    if t = [] then "/" else String.mk (lastComponent t)

/-- Go `strings.TrimSuffix`: remove the trailing `suffx` when present,
otherwise return the string unchanged. -/
def trimSuffix (s suffx : String) : String :=
  if suffx.toList.isSuffixOf s.toList then
    String.mk (s.toList.take (s.toList.length - suffx.toList.length))
  else s

/-! ## Directory creation (`os.MkdirAll`) and `PrepareDirs` -/

/-- Results of the embedded operations: success or error, each carrying the
resulting filesystem, or a fatal (process-terminating) outcome that never
returns to the caller. -/
inductive RRes where
  | ok (fs : FS)
  | err (fs : FS)
  | fatal
deriving DecidableEq, Repr

/-- The chain of `'/'`-separated proper ancestors of a path, shortest
first (used to model `os.MkdirAll` creating missing parents). -/
def dirChainAux : List Char → List Char → List (List Char)
  | [], _ => []
  | c :: rest, accRev =>
      if c = '/' then accRev.reverse :: dirChainAux rest (c :: accRev)
      else dirChainAux rest (c :: accRev)

/-- All ancestor paths of `s` (non-empty proper prefixes at `'/'`
boundaries) followed by `s` itself. -/
def dirChain (s : String) : List String :=
  ((dirChainAux s.toList []).filter (fun c => c ≠ [])).map String.mk ++ [s]

/-- Create the directories of `dirChain dir` that are missing, each with
mode `0o755`. -/
def addDirsAll (dir : String) (fs : FS) : FS :=
  (dirChain dir).foldl
    (fun a d => if (fsLookup d a).isSome then a else fsInsert d (.dir 0o755) a)
    fs

/-- `os.MkdirAll(dir, 0755)`: succeeds without change when `dir` already
exists as a directory, fails when it exists as a non-directory, and
otherwise creates the missing directories (the oracle `mkdirFails` injects
an environment failure such as a permission error). -/
def mkdirAll (dir : String) (mkdirFails : Bool) (fs : FS) : RRes :=
  match fsLookup dir fs with
  | some (.dir _) => .ok fs
  | some _ => .err fs
  | none => if mkdirFails then .err fs else .ok (addDirsAll dir fs)

/-- `PrepareDirs`: a no-op when `fileName = targetPath`; otherwise strip the
final path component of `fileName` from the end of `targetPath` and
`MkdirAll` the result with mode `0o755`. -/
def PrepareDirs (fileName targetPath : String) (mkdirFails : Bool)
    (fs : FS) : RRes :=
  if fileName = targetPath then .ok fs
  else
    let base := goFilepathBase fileName
    let dir := trimSuffix targetPath base
    mkdirAll dir mkdirFails fs

/-! ## `WriteLocalFile` -/

/-- The tar entry-type byte, restricted to the kinds `Interpret` switches
on. -/
inductive TypeFlag where
  | reg
  | regA
  | dir
  | link
  | symlink
  | other
deriving DecidableEq, Repr

/-- The fields of `tar.Header` the interpreter reads: `Name`, `Typeflag`
and `Mode`. -/
structure TarHeader where
  name : String
  typeflag : TypeFlag
  mode : Nat
deriving DecidableEq, Repr

/-- Outcome of `io.Copy(localFile, fileReader)`: either all content bytes
were copied, or the copy failed partway with only `written` bytes in the
file. -/
inductive CopyRes where
  | ok (content : List Nat)
  | fail (written : List Nat)
deriving DecidableEq, Repr

/-- Store `content` into the open file at `nm` (which the caller created
with `os.OpenFile(..., O_CREATE|O_TRUNC, 0666)`), keeping its mode bits and
marking it unsynced. -/
def setFileContent (nm : String) (content : List Nat) (fs : FS) : FS :=
  match fsLookup nm fs with
  | some (.file _ m _) => fsInsert nm (.file content m false) fs
  | _ => fsInsert nm (.file content 0o666 false) fs

/-- `localFile.Chmod(mode)`: replace the mode bits of the file at `nm`. -/
def setFileMode (nm : String) (md : Nat) (fs : FS) : FS :=
  match fsLookup nm fs with
  | some (.file c _ s) => fsInsert nm (.file c md s) fs
  | _ => fs

/-- `localFile.Sync()`: mark the file at `nm` as synced to stable
storage. -/
def setFileSynced (nm : String) (fs : FS) : FS :=
  match fsLookup nm fs with
  | some (.file c m _) => fsInsert nm (.file c m true) fs
  | _ => fs

/-- `WriteLocalFile`: copy the reader into the open local file; on copy
failure remove the local file (fatal if the removal itself fails) and
return the error; then chmod to the header's mode (error surfaced); then,
when `fsync` is requested, fsync (error surfaced).  The oracles
`removeFails`, `chmodFails`, `syncFails` inject OS failures of the
corresponding calls. -/
def WriteLocalFile (copyRes : CopyRes) (hdr : TarHeader)
    (localFileName : String) (removeFails chmodFails syncFails : Bool)
    (fsync : Bool) (fs : FS) : RRes :=
  match copyRes with
  | .fail written =>
      if removeFails then .fatal
      else .err (fsRemove localFileName (setFileContent localFileName written fs))
  | .ok content =>
      let fs1 := setFileContent localFileName content fs
      if chmodFails then .err fs1
      else
        let fs2 := setFileMode localFileName hdr.mode fs1
        if fsync then
          if syncFails then .err fs2
          else .ok (setFileSynced localFileName fs2)
        else .ok fs2

theorem fsLookup_setFileContent_self (nm : String) (content : List Nat)
    (fs : FS) : ∃ m, fsLookup nm (setFileContent nm content fs)
      = some (.file content m false) := by
  unfold setFileContent
  match h : fsLookup nm fs with
  | some (.file c m s) => exact ⟨m, by simp [fsLookup_fsInsert_self]⟩
  | some (.dir m) => exact ⟨0o666, by simp [fsLookup_fsInsert_self]⟩
  | some (.hardlink t) => exact ⟨0o666, by simp [fsLookup_fsInsert_self]⟩
  | some (.symlink t) => exact ⟨0o666, by simp [fsLookup_fsInsert_self]⟩
  | none => exact ⟨0o666, by simp [fsLookup_fsInsert_self]⟩

theorem fsLookup_setFileMode_self (nm : String) (md : Nat) (c : List Nat)
    (m : Nat) (s : Bool) (fs : FS)
    (h : fsLookup nm fs = some (.file c m s)) :
    fsLookup nm (setFileMode nm md fs) = some (.file c md s) := by
  unfold setFileMode
  rw [h]
  simp [fsLookup_fsInsert_self]

theorem fsLookup_setFileSynced_self (nm : String) (c : List Nat) (m : Nat)
    (s : Bool) (fs : FS) (h : fsLookup nm fs = some (.file c m s)) :
    fsLookup nm (setFileSynced nm fs) = some (.file c m true) := by
  unfold setFileSynced
  rw [h]
  simp [fsLookup_fsInsert_self]

theorem wlf_fail_err (written : List Nat) (hdr : TarHeader) (nm : String)
    (removeFails chmodFails syncFails fsync : Bool) (fs fs' : FS)
    (h : WriteLocalFile (.fail written) hdr nm removeFails chmodFails
      syncFails fsync fs = .err fs') : fsLookup nm fs' = none := by
  unfold WriteLocalFile at h
  by_cases hr : removeFails
  · simp [hr] at h
  · simp [hr] at h
    rw [← h]
    exact fsLookup_fsRemove_self nm _

theorem wlf_ok_err (content : List Nat) (hdr : TarHeader) (nm : String)
    (removeFails chmodFails syncFails fsync : Bool) (fs fs' : FS)
    (h : WriteLocalFile (.ok content) hdr nm removeFails chmodFails
      syncFails fsync fs = .err fs') :
    ∃ m s, fsLookup nm fs' = some (.file content m s) := by
  unfold WriteLocalFile at h
  obtain ⟨m1, hm1⟩ := fsLookup_setFileContent_self nm content fs
  by_cases hc : chmodFails
  · simp [hc] at h
    exact ⟨m1, false, h ▸ hm1⟩
  · by_cases hf : fsync
    · by_cases hs : syncFails
      · simp [hc, hf, hs] at h
        exact ⟨hdr.mode, false, h ▸ fsLookup_setFileMode_self nm hdr.mode _ _ _ _ hm1⟩
      · simp [hc, hf, hs] at h
    · simp [hc, hf] at h

/-- C2: for every full-file write in which the byte copy from the content
reader fails partway, the partially written file at the target path is
deleted before the error is returned: whenever `WriteLocalFile` with a
failing copy returns an error (rather than terminating fatally because the
deletion itself failed), the target path no longer exists. -/
theorem writeLocalFile_copy_failure_removes_target (written : List Nat)
    (hdr : TarHeader) (nm : String)
    (removeFails chmodFails syncFails fsync : Bool) (fs fs' : FS)
    (h : WriteLocalFile (.fail written) hdr nm removeFails chmodFails
      syncFails fsync fs = .err fs') : fsLookup nm fs' = none :=
  wlf_fail_err written hdr nm removeFails chmodFails syncFails fsync fs fs' h

theorem writeLocalFile_copy_failure_removes_target_witness :
    fsLookup "/data/f" ([] : FS) = none :=
  writeLocalFile_copy_failure_removes_target [1, 2] ⟨"f", .reg, 420⟩
    "/data/f" false false false false
    [("/data/f", FNode.file [] 438 false)] [] (by decide)

/-- C10: in a full-file write, if the byte copy completes but the
subsequent chmod or requested fsync fails, the error is returned with the
fully written file left in place (with its complete content); deletion
happens only on copy failure, so after any error return of
`WriteLocalFile` the target path is either absent or holds the complete
content. -/
theorem writeLocalFile_error_leaves_complete_file (copyRes : CopyRes)
    (hdr : TarHeader) (nm : String)
    (removeFails chmodFails syncFails fsync : Bool) (fs fs' : FS)
    (h : WriteLocalFile copyRes hdr nm removeFails chmodFails syncFails
      fsync fs = .err fs') :
    (fsLookup nm fs' = none ∨
      ∃ c m s, copyRes = .ok c ∧ fsLookup nm fs' = some (.file c m s)) ∧
    (∀ c, copyRes = .ok c →
      ∃ m s, fsLookup nm fs' = some (.file c m s)) := by
  cases copyRes with
  | fail w =>
      refine ⟨Or.inl ?_, ?_⟩
      · exact wlf_fail_err w hdr nm removeFails chmodFails syncFails fsync fs fs' h
      · intro c hc
        cases hc
  | ok c =>
      obtain ⟨m, s, hms⟩ :=
        wlf_ok_err c hdr nm removeFails chmodFails syncFails fsync fs fs' h
      refine ⟨Or.inr ⟨c, m, s, rfl, hms⟩, ?_⟩
      intro c' hc'
      cases hc'
      exact ⟨m, s, hms⟩

theorem writeLocalFile_error_leaves_complete_file_witness :
    (fsLookup "/f" [("/f", FNode.file [7] 438 false)] = none ∨
      ∃ c m s, CopyRes.ok [7] = CopyRes.ok c ∧
        fsLookup "/f" [("/f", FNode.file [7] 438 false)]
          = some (.file c m s)) ∧
    (∀ c, CopyRes.ok [7] = CopyRes.ok c →
      ∃ m s, fsLookup "/f" [("/f", FNode.file [7] 438 false)]
        = some (.file c m s)) :=
  writeLocalFile_error_leaves_complete_file (.ok [7]) ⟨"f", .reg, 420⟩ "/f"
    false true false false [] [("/f", FNode.file [7] 438 false)] (by decide)

/-- C3: durability-mode resolution: the legacy disable-sync boolean set to
true with the new mode setting unset resolves to `DISABLED` and logs the
two distinct warnings (deprecation, then fallback); new mode `GLOBAL` with
the legacy boolean true resolves to `GLOBAL` logging only the deprecation
warning; and when the new setting explicitly requests `DISABLED` the
resolved mode is `DISABLED` whatever the legacy boolean is. -/
theorem getFileSyncMode_resolution :
    getFileSyncMode ⟨none, some true⟩
      = (.DISABLED, [.deprecated, .fallingBack]) ∧
    Warning.deprecated ≠ Warning.fallingBack ∧
    getFileSyncMode ⟨some .GLOBAL, some true⟩ = (.GLOBAL, [.deprecated]) ∧
    (∀ legacy : Option Bool,
      (getFileSyncMode ⟨some .DISABLED, legacy⟩).1 = .DISABLED) := by
  refine ⟨rfl, by decide, rfl, ?_⟩
  intro legacy
  cases legacy with
  | none => rfl
  | some b => cases b <;> rfl

/-- C5: the finalize hook issues the whole-filesystem sync when the
resolved mode is `GLOBAL`, returns an error carrying the syscall error
code when the sync fails (and no error on success), and for `DISABLED`
issues no sync call and returns no error. -/
theorem onInterpretFinish_sync_behavior :
    ∀ (cfg : RestoreConfig) (syncCode : Nat),
    ((getFileSyncMode cfg).1 = .GLOBAL →
      (OnInterpretFinish cfg syncCode).syncIssued = true ∧
      (syncCode ≠ 0 →
        (OnInterpretFinish cfg syncCode).errorCode = some syncCode) ∧
      (syncCode = 0 → (OnInterpretFinish cfg syncCode).errorCode = none)) ∧
    ((getFileSyncMode cfg).1 = .DISABLED →
      (OnInterpretFinish cfg syncCode).syncIssued = false ∧
      (OnInterpretFinish cfg syncCode).errorCode = none) := by
  intro cfg syncCode
  constructor
  · intro hg
    by_cases h0 : syncCode = 0 <;>
      simp [OnInterpretFinish, hg, h0]
  · intro hd
    simp [OnInterpretFinish, hd]

theorem onInterpretFinish_sync_behavior_witness :
    (OnInterpretFinish ⟨some .GLOBAL, none⟩ 5).syncIssued = true ∧
    (OnInterpretFinish ⟨some .GLOBAL, none⟩ 5).errorCode = some 5 ∧
    (OnInterpretFinish ⟨some .DISABLED, some true⟩ 0).syncIssued = false :=
  ⟨((onInterpretFinish_sync_behavior ⟨some .GLOBAL, none⟩ 5).1 (by decide)).1,
   ((onInterpretFinish_sync_behavior ⟨some .GLOBAL, none⟩ 5).1
      (by decide)).2.1 (by decide),
   ((onInterpretFinish_sync_behavior ⟨some .DISABLED, some true⟩ 0).2
      (by decide)).1⟩

/-- C9: parent-directory preparation: `PrepareDirs` is a no-op returning no
error when the entry name equals the target path; otherwise it strips the
final path component of the entry name from the end of the target path and
recursively creates the resulting directory (mode `0o755`), succeeding with
no change when that directory already exists. -/
theorem prepareDirs_spec :
    ∀ (fileName targetPath : String) (mkdirFails : Bool) (fs : FS),
    (fileName = targetPath →
      PrepareDirs fileName targetPath mkdirFails fs = .ok fs) ∧
    (fileName ≠ targetPath →
      PrepareDirs fileName targetPath mkdirFails fs
        = mkdirAll (trimSuffix targetPath (goFilepathBase fileName))
            mkdirFails fs ∧
      (∀ m, fsLookup (trimSuffix targetPath (goFilepathBase fileName)) fs
          = some (.dir m) →
        PrepareDirs fileName targetPath mkdirFails fs = .ok fs)) := by
  intro fn tp mf fs
  refine ⟨fun he => by simp [PrepareDirs, he], fun hne => ⟨?_, ?_⟩⟩
  · simp [PrepareDirs, hne]
  · intro m hm
    simp [PrepareDirs, hne, mkdirAll, hm]

theorem prepareDirs_spec_witness :
    PrepareDirs "a" "a" true [] = .ok [] ∧
    PrepareDirs "base/1/16384" "/data/base/1/16384" true
        [("/data/base/1/", FNode.dir 493)]
      = .ok [("/data/base/1/", FNode.dir 493)] :=
  ⟨(prepareDirs_spec "a" "a" true []).1 rfl,
   ((prepareDirs_spec "base/1/16384" "/data/base/1/16384" true
      [("/data/base/1/", FNode.dir 493)]).2 (by decide)).2 493 (by decide)⟩

/-! ## Block-level increment application -/

/-- Overwrite the bytes of `content` starting at offset `off` with `blk`
(an in-place `WriteAt`-style block write). -/
def writeAt (content : List Nat) (off : Nat) (blk : List Nat) : List Nat :=
  content.take off ++ blk ++ content.drop (off + blk.length)

theorem writeAt_length (content blk : List Nat) (off : Nat)
    (h : off + blk.length ≤ content.length) :
    (writeAt content off blk).length = content.length := by
  simp [writeAt, List.length_take, List.length_drop]
  omega

theorem writeAt_getElem_in (content blk : List Nat) (off i : Nat)
    (h : off + blk.length ≤ content.length) (hi : i < blk.length) :
    (writeAt content off blk)[off + i]? = blk[i]? := by
  unfold writeAt
  have hto : (content.take off).length = off := by
    rw [List.length_take]; omega
  have htb : (content.take off ++ blk).length = off + blk.length := by
    rw [List.length_append, hto]
  rw [List.getElem?_append_left (by rw [htb]; omega)]
  rw [List.getElem?_append_right (by rw [hto]; omega), hto]
  have he : off + i - off = i := by omega
  rw [he]

theorem writeAt_getElem_out (content blk : List Nat) (off j : Nat)
    (h : off + blk.length ≤ content.length)
    (hj : j < off ∨ off + blk.length ≤ j) :
    (writeAt content off blk)[j]? = content[j]? := by
  unfold writeAt
  have hto : (content.take off).length = off := by
    rw [List.length_take]; omega
  have htb : (content.take off ++ blk).length = off + blk.length := by
    rw [List.length_append, hto]
  rcases hj with hj | hj
  · rw [List.getElem?_append_left (by rw [htb]; omega)]
    rw [List.getElem?_append_left (by rw [hto]; omega)]
    exact List.getElem?_take_of_lt hj
  · rw [List.getElem?_append_right (by rw [htb]; omega), htb]
    rw [List.getElem?_drop]
    congr 1
    omega

/-- Apply an increment stream: write each `(blockNumber, blockBytes)` pair
at offset `blockNumber * blockSize` of the content, in stream order. -/
def applyBlocks (blockSize : Nat) (blocks : List (Nat × List Nat))
    (content : List Nat) : List Nat :=
  blocks.foldl (fun c p => writeAt c (p.1 * blockSize) p.2) content

theorem applyBlocks_nil (S : Nat) (c : List Nat) :
    applyBlocks S [] c = c := rfl

theorem applyBlocks_cons (S bn : Nat) (blk : List Nat)
    (tl : List (Nat × List Nat)) (c : List Nat) :
    applyBlocks S ((bn, blk) :: tl) c
      = applyBlocks S tl (writeAt c (bn * S) blk) := rfl

theorem aligned_not_mem (S bn bm i : Nat) (hi : i < S) (hne : bn ≠ bm) :
    ¬(bm * S ≤ bn * S + i ∧ bn * S + i < bm * S + S) := by
  rintro ⟨h1, h2⟩
  rcases Nat.lt_or_ge bn bm with h | h
  · have e1 : (bn + 1) * S ≤ bm * S := Nat.mul_le_mul_right S h
    have e2 : (bn + 1) * S = bn * S + S := Nat.succ_mul bn S
    omega
  · have h' : bm < bn := by omega
    have e1 : (bm + 1) * S ≤ bn * S := Nat.mul_le_mul_right S h'
    have e2 : (bm + 1) * S = bm * S + S := Nat.succ_mul bm S
    omega

theorem applyBlocks_spec (S : Nat) :
    ∀ (blocks : List (Nat × List Nat)) (xs : List Nat),
    (∀ p ∈ blocks, (p.2 : List Nat).length = S) →
    (∀ p ∈ blocks, (p.1 + 1) * S ≤ xs.length) →
    (blocks.map Prod.fst).Nodup →
    (applyBlocks S blocks xs).length = xs.length ∧
    (∀ p ∈ blocks, ∀ i, i < S →
      (applyBlocks S blocks xs)[p.1 * S + i]? = (p.2 : List Nat)[i]?) ∧
    (∀ j, (∀ p ∈ blocks, ¬(p.1 * S ≤ j ∧ j < p.1 * S + S)) →
      (applyBlocks S blocks xs)[j]? = xs[j]?) := by
  intro blocks
  induction blocks with
  | nil =>
      intro xs _ _ _
      exact ⟨rfl, by simp, fun j _ => rfl⟩
  | cons hd tl ih =>
      intro xs hlen hfit hnodup
      obtain ⟨bn, blk⟩ := hd
      have hblk : blk.length = S := hlen (bn, blk) (List.mem_cons_self _ _)
      have hfit0 : (bn + 1) * S ≤ xs.length :=
        hfit (bn, blk) (List.mem_cons_self _ _)
      have hw : bn * S + blk.length ≤ xs.length := by
        rw [hblk]
        have hsm : (bn + 1) * S = bn * S + S := by ring
        omega
      have hlenw : (writeAt xs (bn * S) blk).length = xs.length :=
        writeAt_length xs blk (bn * S) hw
      have hnodup2 : (tl.map Prod.fst).Nodup := by
        rw [List.map_cons] at hnodup
        exact hnodup.of_cons
      have hbn_notin : bn ∉ tl.map Prod.fst := by
        rw [List.map_cons] at hnodup
        exact (List.nodup_cons.mp hnodup).1
      obtain ⟨ihlen, ihin, ihout⟩ := ih (writeAt xs (bn * S) blk)
        (fun p hp => hlen p (List.mem_cons_of_mem _ hp))
        (fun p hp => by
          rw [hlenw]; exact hfit p (List.mem_cons_of_mem _ hp))
        hnodup2
      rw [applyBlocks_cons]
      refine ⟨by rw [ihlen, hlenw], ?_, ?_⟩
      · intro p hp i hi
        rcases List.mem_cons.mp hp with he | hmem
        · subst he
          show (applyBlocks S tl (writeAt xs (bn * S) blk))[bn * S + i]?
            = blk[i]?
          have hun : ∀ q ∈ tl,
              ¬(q.1 * S ≤ bn * S + i ∧ bn * S + i < q.1 * S + S) := by
            intro q hq
            exact aligned_not_mem S bn q.1 i hi
              (fun hc => hbn_notin (hc ▸ List.mem_map_of_mem Prod.fst hq))
          rw [ihout (bn * S + i) hun]
          exact writeAt_getElem_in xs blk (bn * S) i hw (by omega)
        · exact ihin p hmem i hi
      · intro j hj
        rw [ihout j (fun p hp => hj p (List.mem_cons_of_mem _ hp))]
        have hhd : ¬(bn * S ≤ j ∧ j < bn * S + S) :=
          hj (bn, blk) (List.mem_cons_self _ _)
        exact writeAt_getElem_out xs blk (bn * S) j hw (by rw [hblk]; omega)

/-- The increment-stream content carried by the reader: the file's full
final size, the fixed block size, and the `(blockNumber, blockBytes)`
records in stream order. -/
structure IncrementData where
  fileSize : Nat
  blockSize : Nat
  blocks : List (Nat × List Nat)
deriving DecidableEq, Repr

/-- Modelled from the spec: `ApplyFileIncrement` is declared in another
source file of the repository (only its call site is in the interpreter
file).  Per the spec's increment path: with create-new-incremental-files
true the target is allocated at its full final size zero-filled and each
changed block written at `blockNumber * blockSize`; with the flag false the
target file is expected to already exist and only the byte ranges named by
the stream are overwritten in place.  A requested fsync that fails
(oracle `syncFails`) surfaces an error; a missing or non-regular target in
the in-place mode is an error. -/
def ApplyFileIncrement (targetPath : String) (inc : IncrementData)
    (createNewIncrementalFiles fsync syncFails : Bool) (fs : FS) : RRes :=
  if createNewIncrementalFiles then
    let post := applyBlocks inc.blockSize inc.blocks
      (List.replicate inc.fileSize 0)
    if fsync ∧ syncFails then
      .err (fsInsert targetPath (.file post 0o666 false) fs)
    else .ok (fsInsert targetPath (.file post 0o666 fsync) fs)
  else
    match fsLookup targetPath fs with
    | some (.file pre m _) =>
        let post := applyBlocks inc.blockSize inc.blocks pre
        if fsync ∧ syncFails then
          .err (fsInsert targetPath (.file post m false) fs)
        else .ok (fsInsert targetPath (.file post m fsync) fs)
    | _ => .err fs

/-- C1: for a regular-file entry applied as an increment, after a
successful apply the target file holds `applyBlocks` of its pre-call
content (pre-existing content when create-new-incremental-files is false,
a zero-filled file of the final size when it is true), and that content
satisfies the block invariant: same length as before; for every block
number present in the stream the bytes
`[blockNumber*blockSize, (blockNumber+1)*blockSize)` equal the stream's
block bytes; and every byte outside the stream's block ranges is unchanged
from its pre-call value. -/
theorem applyFileIncrement_block_invariant (targetPath : String)
    (inc : IncrementData) (createNew fsync syncFails : Bool) (fs fs' : FS)
    (pre : List Nat)
    (hlen : ∀ p ∈ inc.blocks, (p.2 : List Nat).length = inc.blockSize)
    (hfit : ∀ p ∈ inc.blocks, (p.1 + 1) * inc.blockSize ≤ pre.length)
    (hnodup : (inc.blocks.map Prod.fst).Nodup)
    (hpreNew : createNew = true → pre = List.replicate inc.fileSize 0)
    (hpreOld : createNew = false →
      ∃ m s, fsLookup targetPath fs = some (.file pre m s))
    (hok : ApplyFileIncrement targetPath inc createNew fsync syncFails fs
      = .ok fs') :
    ∃ m s, fsLookup targetPath fs'
        = some (.file (applyBlocks inc.blockSize inc.blocks pre) m s) ∧
      (applyBlocks inc.blockSize inc.blocks pre).length = pre.length ∧
      (∀ p ∈ inc.blocks, ∀ i, i < inc.blockSize →
        (applyBlocks inc.blockSize inc.blocks pre)[p.1 * inc.blockSize + i]?
          = (p.2 : List Nat)[i]?) ∧
      (∀ j, (∀ p ∈ inc.blocks,
          ¬(p.1 * inc.blockSize ≤ j ∧ j < p.1 * inc.blockSize
            + inc.blockSize)) →
        (applyBlocks inc.blockSize inc.blocks pre)[j]? = pre[j]?) := by
  have hspec := applyBlocks_spec inc.blockSize inc.blocks pre hlen hfit hnodup
  cases createNew with
  | true =>
      have hp := hpreNew rfl
      unfold ApplyFileIncrement at hok
      by_cases hfs : fsync ∧ syncFails
      · simp [hfs] at hok
      · simp [hfs] at hok
        refine ⟨0o666, fsync, ?_, hspec⟩
        rw [← hok, ← hp]
        exact fsLookup_fsInsert_self targetPath _ fs
  | false =>
      obtain ⟨m0, s0, hl⟩ := hpreOld rfl
      unfold ApplyFileIncrement at hok
      rw [hl] at hok
      by_cases hfs : fsync ∧ syncFails
      · simp [hfs] at hok
      · simp [hfs] at hok
        refine ⟨m0, fsync, ?_, hspec⟩
        rw [← hok]
        exact fsLookup_fsInsert_self targetPath _ fs

theorem applyFileIncrement_block_invariant_witness :
    ∃ m s, fsLookup "/data/base/1"
        [("/data/base/1", FNode.file [1, 2, 8, 8, 5, 6] 420 false)]
        = some (.file (applyBlocks 2 [(0, [1, 2]), (2, [5, 6])]
            [9, 9, 8, 8, 7, 7]) m s) ∧
      (applyBlocks 2 [(0, [1, 2]), (2, [5, 6])] [9, 9, 8, 8, 7, 7]).length
        = [9, 9, 8, 8, 7, 7].length ∧
      (∀ p ∈ [(0, [1, 2]), (2, [5, 6])], ∀ i, i < 2 →
        (applyBlocks 2 [(0, [1, 2]), (2, [5, 6])]
          [9, 9, 8, 8, 7, 7])[p.1 * 2 + i]? = (p.2 : List Nat)[i]?) ∧
      (∀ j, (∀ p ∈ [(0, [1, 2]), (2, [5, 6])],
          ¬(p.1 * 2 ≤ j ∧ j < p.1 * 2 + 2)) →
        (applyBlocks 2 [(0, [1, 2]), (2, [5, 6])] [9, 9, 8, 8, 7, 7])[j]?
          = [9, 9, 8, 8, 7, 7][j]?) :=
  applyFileIncrement_block_invariant "/data/base/1"
    ⟨6, 2, [(0, [1, 2]), (2, [5, 6])]⟩ false false false
    [("/data/base/1", FNode.file [9, 9, 8, 8, 7, 7] 420 false)]
    [("/data/base/1", FNode.file [1, 2, 8, 8, 5, 6] 420 false)]
    [9, 9, 8, 8, 7, 7]
    (by decide) (by decide) (by decide)
    (fun h => nomatch h) (fun _ => ⟨420, false, rfl⟩)
    (by decide)

/-! ## `unwrapRegularFileOld` and `Interpret` -/

/-- The per-file metadata the interpreter reads: whether the file is stored
as an increment (`IsIncremented`). -/
structure BackupFileDescription where
  isIncremented : Bool
deriving DecidableEq, Repr

/-- `FilesMetadataDto`: the `Files` map from entry name to its
description. -/
structure FilesMetadataDto where
  files : List (String × BackupFileDescription)
deriving DecidableEq, Repr

/-- Look up an entry's description in the metadata map. -/
def metaLookup (md : FilesMetadataDto) (nm : String) :
    Option BackupFileDescription :=
  md.files.lookup nm

/-- `BackupSentinelDto` as the interpreter consumes it: the result of its
`IsIncremental()` predicate (the backup descriptor's incremental flag). -/
structure BackupSentinelDto where
  isIncremental : Bool
deriving DecidableEq, Repr

/-- `FileTarInterpreter`: the data directory, the sentinel, the
files-metadata index, the optional set of files to unwrap (`none` models
the nil map: restore everything; `some keys` models a non-nil
`map[string]bool`, whose membership test is on its keys), and the
create-new-incremental-files flag. -/
structure FileTarInterpreter where
  dbDataDirectory : String
  sentinel : BackupSentinelDto
  filesMetadata : FilesMetadataDto
  filesToUnwrap : Option (List String)
  createNewIncrementalFiles : Bool
deriving DecidableEq, Repr

/-- The single content reader of an entry, with its two possible
interpretations: the bytes read as full file content (`asFull`, the
`io.Copy` outcome) and the same bytes parsed as an increment stream
(`asIncrement`). -/
structure ReaderData where
  asFull : CopyRes
  asIncrement : IncrementData
deriving DecidableEq, Repr

/-- Environment-failure oracles for the OS calls made while materializing
one entry. -/
structure FileOracle where
  removeFails : Bool
  chmodFails : Bool
  syncFails : Bool
  openFails : Bool
  mkdirFails : Bool
deriving DecidableEq, Repr

/-- `os.OpenFile(targetPath, O_WRONLY|O_CREATE|O_TRUNC, 0666)`: truncate an
existing regular file (keeping its mode bits) or create a fresh one with
mode `0o666`. -/
def openTrunc (tp : String) (fs : FS) : FS :=
  match fsLookup tp fs with
  | some (.file _ m _) => fsInsert tp (.file [] m false) fs
  | _ => fsInsert tp (.file [] 0o666 false) fs

/-- The full-file path of `unwrapRegularFileOld`: prepare the parent
directories, create/truncate the target file, and `WriteLocalFile` the
reader's bytes into it. -/
def writeFullFile (rdr : ReaderData) (fileInfo : TarHeader) (tp : String)
    (fsync : Bool) (orc : FileOracle) (fs : FS) : RRes :=
  match PrepareDirs fileInfo.name tp orc.mkdirFails fs with
  | .err fs1 => .err fs1
  | .fatal => .fatal
  | .ok fs1 =>
      if orc.openFails then .err fs1
      else WriteLocalFile rdr.asFull fileInfo tp orc.removeFails
        orc.chmodFails orc.syncFails fsync (openTrunc tp fs1)

/-- The body of `unwrapRegularFileOld` once the entry is accepted: when the
metadata marks the entry incremented and the sentinel says the backup is
incremental, apply the reader as an increment stream; otherwise write it as
the full file content. -/
def unwrapAccepted (ti : FileTarInterpreter) (rdr : ReaderData)
    (fileInfo : TarHeader) (tp : String) (fsync : Bool) (orc : FileOracle)
    (fs : FS) : RRes :=
  match metaLookup ti.filesMetadata fileInfo.name with
  | some d =>
      if ti.sentinel.isIncremental ∧ d.isIncremented then
        ApplyFileIncrement tp rdr.asIncrement ti.createNewIncrementalFiles
          fsync orc.syncFails fs
      else writeFullFile rdr fileInfo tp fsync orc fs
  | none => writeFullFile rdr fileInfo tp fsync orc fs

/-- `unwrapRegularFileOld`: skip the entry (returning no error and leaving
the filesystem untouched) when a files-to-unwrap set is configured and the
entry's name is not among its keys; otherwise proceed with the accepted
body. -/
def unwrapRegularFileOld (ti : FileTarInterpreter) (rdr : ReaderData)
    (fileInfo : TarHeader) (tp : String) (fsync : Bool) (orc : FileOracle)
    (fs : FS) : RRes :=
  match ti.filesToUnwrap with
  | some keys =>
      if fileInfo.name ∈ keys then unwrapAccepted ti rdr fileInfo tp fsync orc fs
      else .ok fs
  | none => unwrapAccepted ti rdr fileInfo tp fsync orc fs

/-- `os.Chmod(targetPath, mode)` on an existing node. -/
def chmodPath (tp : String) (md : Nat) (fs : FS) : FS :=
  match fsLookup tp fs with
  | some (.dir _) => fsInsert tp (.dir md) fs
  | some (.file xs _ s) => fsInsert tp (.file xs md s) fs
  | _ => fs

/-- `Interpret`: dispatch one tar entry by type.  Regular files go through
`unwrapRegularFileOld` with the fsync flag hard-coded to `false` (the
repository's `useNewUnwrapImplementation` switch and
`unwrapRegularFileNew` live outside this source file; both call sites pass
`false`, and the spec describes one regular-file path, embedded here as the
old implementation).  Directories are `MkdirAll`-ed then chmod-ed; hard
and symbolic links are created at the target path pointing at the entry's
name, an existing node at the target path surfacing the creation error;
other entry kinds are ignored. -/
def Interpret (ti : FileTarInterpreter) (rdr : ReaderData)
    (fileInfo : TarHeader) (orc : FileOracle) (fs : FS) : RRes :=
  let tp := pathJoin ti.dbDataDirectory fileInfo.name
  match fileInfo.typeflag with
  | .reg => unwrapRegularFileOld ti rdr fileInfo tp false orc fs
  | .regA => unwrapRegularFileOld ti rdr fileInfo tp false orc fs
  | .dir =>
      match mkdirAll tp orc.mkdirFails fs with
      | .ok fs1 =>
          if orc.chmodFails then .err fs1
          else .ok (chmodPath tp fileInfo.mode fs1)
      | r => r
  | .link =>
      match fsLookup tp fs with
      | some _ => .err fs
      | none => .ok (fsInsert tp (.hardlink fileInfo.name) fs)
  | .symlink =>
      match fsLookup tp fs with
      | some _ => .err fs
      | none => .ok (fsInsert tp (.symlink fileInfo.name) fs)
  | .other => .ok fs

/-- C6: selective restore filtering: with no files-to-unwrap set configured
(nil map) every regular-file entry proceeds to materialization; with a set
configured, an entry proceeds iff its name is among the keys, and an
excluded entry returns no error with the filesystem (in particular the
target path) completely untouched. -/
theorem unwrap_selective_filter :
    ∀ (ti : FileTarInterpreter) (rdr : ReaderData) (fileInfo : TarHeader)
      (tp : String) (fsync : Bool) (orc : FileOracle) (fs : FS),
    (ti.filesToUnwrap = none →
      unwrapRegularFileOld ti rdr fileInfo tp fsync orc fs
        = unwrapAccepted ti rdr fileInfo tp fsync orc fs) ∧
    (∀ keys, ti.filesToUnwrap = some keys →
      (fileInfo.name ∈ keys →
        unwrapRegularFileOld ti rdr fileInfo tp fsync orc fs
          = unwrapAccepted ti rdr fileInfo tp fsync orc fs) ∧
      (fileInfo.name ∉ keys →
        unwrapRegularFileOld ti rdr fileInfo tp fsync orc fs = .ok fs)) := by
  intro ti rdr fi tp fy orc fs
  refine ⟨fun h => by simp [unwrapRegularFileOld, h],
    fun keys hk => ⟨?_, ?_⟩⟩
  · intro hmem
    simp [unwrapRegularFileOld, hk, hmem]
  · intro hmem
    simp [unwrapRegularFileOld, hk, hmem]

theorem unwrap_selective_filter_witness :
    unwrapRegularFileOld
        ⟨"/d", ⟨false⟩, ⟨[]⟩, some ["other"], false⟩
        ⟨.ok [1], ⟨0, 1, []⟩⟩ ⟨"x", .reg, 420⟩ "/d/x" false
        ⟨false, false, false, false, false⟩
        [("/d/x", FNode.file [3] 420 true)]
      = .ok [("/d/x", FNode.file [3] 420 true)] :=
  ((unwrap_selective_filter ⟨"/d", ⟨false⟩, ⟨[]⟩, some ["other"], false⟩
      ⟨.ok [1], ⟨0, 1, []⟩⟩ ⟨"x", .reg, 420⟩ "/d/x" false
      ⟨false, false, false, false, false⟩
      [("/d/x", FNode.file [3] 420 true)]).2 ["other"] rfl).2 (by decide)

/-- C7: for an accepted regular-file entry, the content reader is treated
as an increment stream (the body equals `ApplyFileIncrement` on the
reader's increment interpretation) iff the metadata marks the entry name
incremented and the sentinel says the backup is incremental; in every
other case (no metadata entry, not incremented, or non-incremental
backup) it is treated as full file content (the body equals
`writeFullFile` on the reader's full interpretation). -/
theorem unwrap_increment_decision :
    ∀ (ti : FileTarInterpreter) (rdr : ReaderData) (fileInfo : TarHeader)
      (tp : String) (fsync : Bool) (orc : FileOracle) (fs : FS),
    (∀ d, metaLookup ti.filesMetadata fileInfo.name = some d →
      ti.sentinel.isIncremental = true → d.isIncremented = true →
      unwrapAccepted ti rdr fileInfo tp fsync orc fs
        = ApplyFileIncrement tp rdr.asIncrement
            ti.createNewIncrementalFiles fsync orc.syncFails fs) ∧
    ((metaLookup ti.filesMetadata fileInfo.name = none ∨
      (∃ d, metaLookup ti.filesMetadata fileInfo.name = some d ∧
        (ti.sentinel.isIncremental = false ∨ d.isIncremented = false))) →
      unwrapAccepted ti rdr fileInfo tp fsync orc fs
        = writeFullFile rdr fileInfo tp fsync orc fs) := by
  intro ti rdr fi tp fy orc fs
  constructor
  · intro d hd hs hi
    simp [unwrapAccepted, hd, hs, hi]
  · intro hcase
    rcases hcase with hnone | ⟨d, hd, hor⟩
    · simp [unwrapAccepted, hnone]
    · rcases hor with hs | hi
      · simp [unwrapAccepted, hd, hs]
      · simp [unwrapAccepted, hd, hi]

theorem unwrap_increment_decision_witness :
    unwrapAccepted
        ⟨"/d", ⟨true⟩, ⟨[("f", ⟨true⟩)]⟩, none, false⟩
        ⟨.ok [1], ⟨2, 1, [(0, [9])]⟩⟩ ⟨"f", .reg, 420⟩ "/d/f" false
        ⟨false, false, false, false, false⟩ []
      = ApplyFileIncrement "/d/f" ⟨2, 1, [(0, [9])]⟩ false false false [] ∧
    unwrapAccepted
        ⟨"/d", ⟨false⟩, ⟨[("f", ⟨true⟩)]⟩, none, false⟩
        ⟨.ok [1], ⟨2, 1, [(0, [9])]⟩⟩ ⟨"f", .reg, 420⟩ "/d/f" false
        ⟨false, false, false, false, false⟩ []
      = writeFullFile ⟨.ok [1], ⟨2, 1, [(0, [9])]⟩⟩ ⟨"f", .reg, 420⟩
          "/d/f" false ⟨false, false, false, false, false⟩ [] :=
  ⟨(unwrap_increment_decision ⟨"/d", ⟨true⟩, ⟨[("f", ⟨true⟩)]⟩, none, false⟩
      ⟨.ok [1], ⟨2, 1, [(0, [9])]⟩⟩ ⟨"f", .reg, 420⟩ "/d/f" false
      ⟨false, false, false, false, false⟩ []).1 ⟨true⟩ (by decide) rfl rfl,
   (unwrap_increment_decision ⟨"/d", ⟨false⟩, ⟨[("f", ⟨true⟩)]⟩, none, false⟩
      ⟨.ok [1], ⟨2, 1, [(0, [9])]⟩⟩ ⟨"f", .reg, 420⟩ "/d/f" false
      ⟨false, false, false, false, false⟩ []).2
     (Or.inr ⟨⟨true⟩, by decide, Or.inl rfl⟩)⟩

/-- C8: for hard-link and symbolic-link entries, `Interpret` creates the
link at the target path pointing at the entry's recorded name; when link
creation fails because a node already exists at the target path, the error
is surfaced to the caller with the filesystem unchanged (a single attempt,
no retry). -/
theorem interpret_link_entries :
    ∀ (ti : FileTarInterpreter) (rdr : ReaderData) (fileInfo : TarHeader)
      (orc : FileOracle) (fs : FS),
    (fileInfo.typeflag = .link →
      (fsLookup (pathJoin ti.dbDataDirectory fileInfo.name) fs = none →
        Interpret ti rdr fileInfo orc fs
          = .ok (fsInsert (pathJoin ti.dbDataDirectory fileInfo.name)
              (.hardlink fileInfo.name) fs)) ∧
      (∀ nd, fsLookup (pathJoin ti.dbDataDirectory fileInfo.name) fs
          = some nd →
        Interpret ti rdr fileInfo orc fs = .err fs)) ∧
    (fileInfo.typeflag = .symlink →
      (fsLookup (pathJoin ti.dbDataDirectory fileInfo.name) fs = none →
        Interpret ti rdr fileInfo orc fs
          = .ok (fsInsert (pathJoin ti.dbDataDirectory fileInfo.name)
              (.symlink fileInfo.name) fs)) ∧
      (∀ nd, fsLookup (pathJoin ti.dbDataDirectory fileInfo.name) fs
          = some nd →
        Interpret ti rdr fileInfo orc fs = .err fs)) := by
  intro ti rdr fi orc fs
  constructor
  · intro hl
    refine ⟨fun hn => ?_, fun nd hn => ?_⟩ <;> simp [Interpret, hl, hn]
  · intro hl
    refine ⟨fun hn => ?_, fun nd hn => ?_⟩ <;> simp [Interpret, hl, hn]

theorem interpret_link_entries_witness :
    Interpret ⟨"/d", ⟨false⟩, ⟨[]⟩, none, false⟩ ⟨.ok [], ⟨0, 1, []⟩⟩
        ⟨"lnk", .link, 420⟩ ⟨false, false, false, false, false⟩ []
      = .ok [("/d/lnk", FNode.hardlink "lnk")] ∧
    Interpret ⟨"/d", ⟨false⟩, ⟨[]⟩, none, false⟩ ⟨.ok [], ⟨0, 1, []⟩⟩
        ⟨"lnk", .symlink, 420⟩ ⟨false, false, false, false, false⟩
        [("/d/lnk", FNode.file [] 420 false)]
      = .err [("/d/lnk", FNode.file [] 420 false)] :=
  ⟨((interpret_link_entries ⟨"/d", ⟨false⟩, ⟨[]⟩, none, false⟩
      ⟨.ok [], ⟨0, 1, []⟩⟩ ⟨"lnk", .link, 420⟩
      ⟨false, false, false, false, false⟩ []).1 rfl).1 (by decide),
   ((interpret_link_entries ⟨"/d", ⟨false⟩, ⟨[]⟩, none, false⟩
      ⟨.ok [], ⟨0, 1, []⟩⟩ ⟨"lnk", .symlink, 420⟩
      ⟨false, false, false, false, false⟩
      [("/d/lnk", FNode.file [] 420 false)]).2 rfl).2
     (FNode.file [] 420 false) (by decide)⟩

/-- Project an interpret outcome to the state (content, mode, synced flag)
of the regular file at `tp`, when the outcome is success and such a file
exists. -/
def fileStateAt (r : RRes) (tp : String) :
    Option (List Nat × Nat × Bool) :=
  match r with
  | .ok fs =>
      match fsLookup tp fs with
      | some (.file xs m s) => some (xs, m, s)
      | _ => none
  | _ => none

/-- C4 counterexample: with configuration resolving to the `DEFAULT`
durability mode (new setting unset, legacy boolean unset), a regular-file
entry that is fully and successfully written by `Interpret` ends with its
synced flag `false`: the file was not individually fsynced at write time
(`Interpret` hard-codes the fsync argument to `false`), contradicting the
claim that in `Default` mode every fully written regular file is fsynced
after copy and chmod. -/
theorem interpret_default_mode_perfile_fsync_cex :
    (getFileSyncMode ⟨none, none⟩).1 = .DEFAULT ∧
    fileStateAt
        (Interpret ⟨"/data", ⟨false⟩, ⟨[]⟩, none, false⟩
          ⟨.ok [65, 65, 65, 65], ⟨0, 1, []⟩⟩ ⟨"base/1/16384", .reg, 420⟩
          ⟨false, false, false, false, false⟩ [])
        "/data/base/1/16384"
      = some ([65, 65, 65, 65], 420, false) := by decide

/-- C4 (amended): regular files are never individually fsynced at write
time — `Interpret` passes `fsync = false` to the regular-file path
regardless of the resolved durability mode — so in `DEFAULT` mode a fully
written regular file ends with its synced flag `false`, and durability for
`DEFAULT` mode comes instead from the whole-filesystem sync that the
finalize hook issues for it (as for `GLOBAL`). -/
theorem interpret_default_mode_no_perfile_fsync :
    ∀ (cfg : RestoreConfig) (ti : FileTarInterpreter) (rdr : ReaderData)
      (fileInfo : TarHeader) (orc : FileOracle) (fs fs' : FS)
      (xs : List Nat),
    (getFileSyncMode cfg).1 = .DEFAULT →
    (OnInterpretFinish cfg 0).syncIssued = true ∧
    (fileInfo.typeflag = .reg → ti.filesToUnwrap = none →
      metaLookup ti.filesMetadata fileInfo.name = none →
      rdr.asFull = .ok xs →
      Interpret ti rdr fileInfo orc fs = .ok fs' →
      fsLookup (pathJoin ti.dbDataDirectory fileInfo.name) fs'
        = some (.file xs fileInfo.mode false)) := by
  intro cfg ti rdr fi orc fs fs' xs hdef
  constructor
  · simp [OnInterpretFinish, hdef]
  · intro hreg hnone hmeta hcopy hok
    simp only [Interpret, hreg] at hok
    simp only [unwrapRegularFileOld, hnone] at hok
    simp only [unwrapAccepted, hmeta] at hok
    simp only [writeFullFile] at hok
    cases hP : PrepareDirs fi.name (pathJoin ti.dbDataDirectory fi.name)
        orc.mkdirFails fs with
    | err fs1 => rw [hP] at hok; simp at hok
    | fatal => rw [hP] at hok; simp at hok
    | ok fs1 =>
        rw [hP] at hok
        simp only at hok
        by_cases ho : orc.openFails
        · simp [ho] at hok
        · simp only [ho, if_false] at hok
          rw [hcopy] at hok
          simp only [WriteLocalFile] at hok
          by_cases hc : orc.chmodFails
          · simp [hc] at hok
          · simp only [hc, if_false, Bool.false_eq_true] at hok
            simp at hok
            obtain ⟨m1, hm1⟩ := fsLookup_setFileContent_self
              (pathJoin ti.dbDataDirectory fi.name) xs
              (openTrunc (pathJoin ti.dbDataDirectory fi.name) fs1)
            rw [← hok]
            exact fsLookup_setFileMode_self _ fi.mode _ _ _ _ hm1

theorem interpret_default_mode_no_perfile_fsync_witness :
    (OnInterpretFinish ⟨none, none⟩ 0).syncIssued = true ∧
    fsLookup "/data/base/1/16384"
        [("/data/base/1/16384", FNode.file [65, 65, 65, 65] 420 false),
         ("/data/base/1/", FNode.dir 493), ("/data/base/1", FNode.dir 493),
         ("/data/base", FNode.dir 493), ("/data", FNode.dir 493)]
      = some (.file [65, 65, 65, 65] 420 false) :=
  ⟨(interpret_default_mode_no_perfile_fsync ⟨none, none⟩
      ⟨"/data", ⟨false⟩, ⟨[]⟩, none, false⟩
      ⟨.ok [65, 65, 65, 65], ⟨0, 1, []⟩⟩ ⟨"base/1/16384", .reg, 420⟩
      ⟨false, false, false, false, false⟩ []
      [("/data/base/1/16384", FNode.file [65, 65, 65, 65] 420 false),
       ("/data/base/1/", FNode.dir 493), ("/data/base/1", FNode.dir 493),
       ("/data/base", FNode.dir 493), ("/data", FNode.dir 493)]
      [65, 65, 65, 65] rfl).1,
   (interpret_default_mode_no_perfile_fsync ⟨none, none⟩
      ⟨"/data", ⟨false⟩, ⟨[]⟩, none, false⟩
      ⟨.ok [65, 65, 65, 65], ⟨0, 1, []⟩⟩ ⟨"base/1/16384", .reg, 420⟩
      ⟨false, false, false, false, false⟩ []
      [("/data/base/1/16384", FNode.file [65, 65, 65, 65] 420 false),
       ("/data/base/1/", FNode.dir 493), ("/data/base/1", FNode.dir 493),
       ("/data/base", FNode.dir 493), ("/data", FNode.dir 493)]
      [65, 65, 65, 65] rfl).2 rfl rfl (by decide) rfl (by decide)⟩

end WalG
